import Mathlib

/-
  Verification of the NAV recurrence engine of src/app.py against its
  natural-language specification.

  Shallow embedding conventions:
  - Python floats are modelled as rationals (ℚ); the arithmetic of
    recalc_from_inputs is a chain of +, -, *, / with explicit zero guards,
    so its real-valued (here: rational) semantics is the object of study.
  - pandas timestamps are modelled as integers (ℤ): only their equality and
    total order are used by the code (sort_values, groupby, ==).
  - A cell that is NaN, missing, or unparseable is modelled as Option.none:
    safe_float (app.py lines 28-34) maps every such cell to the default 0.0
    and a parsed number to itself, so Option ℚ with getD 0 is its image.
  - A row whose Date is NaT (normalize_dates coerce + dropna, lines 96-97)
    is modelled as date = none and removed by dropnaDates.
  - The code raises no exceptions on the recalc path (every division is
    guarded), so the embedding is a total function, not Except.
-/

namespace Fund

/-- app.py line 7: MER_DAILY_RATE = 0.06 / 365. -/
def MER_DAILY_RATE : ℚ := 6 / 100 / 365

/-- One user-supplied daily input row as it comes out of the editor /
CSV: every numeric cell may be NaN or unparseable (modelled none), and the
Date cell may fail to parse (date = none, dropped by normalize_dates +
dropna, app.py lines 96-97). -/
structure InputRecord where
  date : Option ℤ
  deposits : Option ℚ
  withdrawals : Option ℚ
  unrealized : Option ℚ
  realized : Option ℚ
  trading_costs : Option ℚ
deriving DecidableEq

/-- An input row with a valid date (after dropna on Date). -/
structure DRecord where
  date : ℤ
  deposits : Option ℚ
  withdrawals : Option ℚ
  unrealized : Option ℚ
  realized : Option ℚ
  trading_costs : Option ℚ
deriving DecidableEq

/-- app.py lines 28-34: safe_float returns float(x) and falls back to the
default 0.0 when x is NaN, missing, or unparseable (all modelled none).
Every call site uses the default 0.0. -/
def safe_float (x : Option ℚ) : ℚ := x.getD 0

/-- app.py lines 96-97: normalize_dates with errors=coerce followed by
dropna(subset=[Date]) keeps exactly the rows with a parseable date. -/
def dropnaDates (l : List InputRecord) : List DRecord :=
  l.filterMap fun r =>
    r.date.map fun d =>
      { date := d, deposits := r.deposits, withdrawals := r.withdrawals,
        unrealized := r.unrealized, realized := r.realized,
        trading_costs := r.trading_costs }

/-- Comparison key of sort_values(Date), app.py line 98. -/
def dateLe (a b : DRecord) : Prop := a.date ≤ b.date

instance : DecidableRel dateLe := fun a b => inferInstanceAs (Decidable (a.date ≤ b.date))

instance : IsTotal DRecord dateLe := ⟨fun a b => Int.le_total a.date b.date⟩

instance : IsTrans DRecord dateLe := ⟨fun _ _ _ hab hbc => le_trans hab hbc⟩

/-- Strict date order, used to state that deduplicated ledgers have
pairwise distinct ascending dates. -/
def dateLt (a b : DRecord) : Prop := a.date < b.date

instance : IsAntisymm DRecord dateLt :=
  ⟨fun _ _ hab hba => absurd (lt_trans hab hba) (lt_irrefl _)⟩

/-- app.py line 101: groupby(Date).last() merges duplicate-date rows;
pandas .last() takes, per column, the last non-null value of the group,
so a later none cell does not erase an earlier value. -/
def mergeLast (a b : DRecord) : DRecord :=
  { date := b.date,
    deposits := b.deposits.orElse fun _ => a.deposits,
    withdrawals := b.withdrawals.orElse fun _ => a.withdrawals,
    unrealized := b.unrealized.orElse fun _ => a.unrealized,
    realized := b.realized.orElse fun _ => a.realized,
    trading_costs := b.trading_costs.orElse fun _ => a.trading_costs }

/-- Collapse each run of equal-date rows of an already date-sorted list to
one row, keeping per column the last non-null value (app.py line 101). -/
def dedupLast : List DRecord → List DRecord
  | [] => []
  | [a] => [a]
  | a :: b :: rest =>
      if a.date = b.date then dedupLast (mergeLast a b :: rest)
      else a :: dedupLast (b :: rest)
termination_by l => l.length

/-- app.py lines 95-101: copy, normalize dates, drop NaT rows, stable sort
by date, merge duplicate dates keep-last. -/
def sortDedupInputs (l : List InputRecord) : List DRecord :=
  dedupLast (List.insertionSort dateLe (dropnaDates l))

/-- The closing triple threaded from one day into the next
(app.py lines 142-144 and 209-212). -/
structure PrevState where
  final_aum : ℚ
  units : ℚ
  price_with_mer : ℚ
deriving DecidableEq

/-- One computed ledger row (the dict built at app.py lines 184-205;
day one at lines 112-134). -/
structure Row where
  date : ℤ
  deposits : ℚ
  withdrawals : ℚ
  initial_aum : ℚ
  units_to_mint : ℚ
  units_to_burn : ℚ
  net_units : ℚ
  units : ℚ
  post_mov_aum : ℚ
  unrealized : ℚ
  unrealized_pct : ℚ
  realized : ℚ
  realized_pct : ℚ
  initial_ppu : ℚ
  close_ppu : ℚ
  servicing_fee : ℚ
  trading_costs : ℚ
  price_with_mer : ℚ
  ppu_change : ℚ
  final_aum : ℚ
deriving DecidableEq

/-- app.py line 149. -/
def deposits_in (r : DRecord) : ℚ := safe_float r.deposits

/-- app.py line 150. -/
def withdrawals_in (r : DRecord) : ℚ := safe_float r.withdrawals

/-- app.py line 151. -/
def unreal_in (r : DRecord) : ℚ := safe_float r.unrealized

/-- app.py line 152. -/
def realized_in (r : DRecord) : ℚ := safe_float r.realized

/-- app.py line 153. -/
def trading_costs_in (r : DRecord) : ℚ := safe_float r.trading_costs

/-- app.py line 159: net_flow = deposits - withdrawals. -/
def netFlow (r : DRecord) : ℚ := deposits_in r - withdrawals_in r

/-- app.py line 161: units_to_mint = deposits / initial_ppu if
deposits greater than 0 and initial_ppu nonzero else 0.0, with
initial_ppu = prev_price_with_mer (line 156). -/
def mintUnits (r : DRecord) (prev : PrevState) : ℚ :=
  if 0 < deposits_in r ∧ prev.price_with_mer ≠ 0
  then deposits_in r / prev.price_with_mer else 0

/-- app.py line 162: units_to_burn, same guard as mint. -/
def burnUnits (r : DRecord) (prev : PrevState) : ℚ :=
  if 0 < withdrawals_in r ∧ prev.price_with_mer ≠ 0
  then withdrawals_in r / prev.price_with_mer else 0

/-- app.py line 163: net_units = units_to_mint - units_to_burn. -/
def netUnits (r : DRecord) (prev : PrevState) : ℚ :=
  mintUnits r prev - burnUnits r prev

/-- app.py line 164: units_end = initial_units + net_units, before the
clamp. -/
def unitsEndRaw (r : DRecord) (prev : PrevState) : ℚ :=
  prev.units + netUnits r prev

/-- app.py lines 166-168: if units_end is nonpositive the code records the
row anyway with units_end clamped to 0.0 (no exception is raised). -/
def unitsEnd (r : DRecord) (prev : PrevState) : ℚ :=
  if unitsEndRaw r prev ≤ 0 then 0 else unitsEndRaw r prev

/-- app.py line 170: post_mov_aum = initial_aum + net_flow, with
initial_aum = prev_final_aum (line 155). -/
def postMovAum (r : DRecord) (prev : PrevState) : ℚ :=
  prev.final_aum + netFlow r

/-- app.py line 172: gross_aum = initial_aum + unreal + realized -
trading_costs. -/
def grossAum (r : DRecord) (prev : PrevState) : ℚ :=
  prev.final_aum + unreal_in r + realized_in r - trading_costs_in r

/-- app.py line 173: close_ppu = gross_aum / units_end if units_end
nonzero else 0.0. -/
def closePpu (r : DRecord) (prev : PrevState) : ℚ :=
  if unitsEnd r prev ≠ 0 then grossAum r prev / unitsEnd r prev else 0

/-- app.py line 175: servicing_fee = (close_ppu * post_mov_aum) *
MER_DAILY_RATE. -/
def servicingFee (r : DRecord) (prev : PrevState) : ℚ :=
  (closePpu r prev * postMovAum r prev) * MER_DAILY_RATE

/-- app.py line 176: fee_per_unit = servicing_fee / units_end if units_end
nonzero else 0.0. -/
def feePerUnit (r : DRecord) (prev : PrevState) : ℚ :=
  if unitsEnd r prev ≠ 0 then servicingFee r prev / unitsEnd r prev else 0

/-- app.py line 177: price_with_mer = close_ppu - fee_per_unit. -/
def priceWithMer (r : DRecord) (prev : PrevState) : ℚ :=
  closePpu r prev - feePerUnit r prev

/-- app.py line 179: final_aum = price_with_mer * units_end. -/
def finalAum (r : DRecord) (prev : PrevState) : ℚ :=
  priceWithMer r prev * unitsEnd r prev

/-- app.py line 181: unreal_pct = (unreal / post_mov_aum) * 100.0 if
post_mov_aum nonzero else 0.0. -/
def unrealPct (r : DRecord) (prev : PrevState) : ℚ :=
  if postMovAum r prev ≠ 0 then unreal_in r / postMovAum r prev * 100 else 0

/-- app.py line 182: realized_pct, same guard. -/
def realizedPct (r : DRecord) (prev : PrevState) : ℚ :=
  if postMovAum r prev ≠ 0 then realized_in r / postMovAum r prev * 100 else 0

/-- The loop body of app.py lines 146-205: one ledger row computed from
the previous closing triple and one daily input record. -/
def dayStep (r : DRecord) (prev : PrevState) : Row :=
  { date := r.date,
    deposits := deposits_in r,
    withdrawals := withdrawals_in r,
    initial_aum := prev.final_aum,
    units_to_mint := mintUnits r prev,
    units_to_burn := burnUnits r prev,
    net_units := netUnits r prev,
    units := unitsEnd r prev,
    post_mov_aum := postMovAum r prev,
    unrealized := unreal_in r,
    unrealized_pct := unrealPct r prev,
    realized := realized_in r,
    realized_pct := realizedPct r prev,
    initial_ppu := prev.price_with_mer,
    close_ppu := closePpu r prev,
    servicing_fee := servicingFee r prev,
    trading_costs := trading_costs_in r,
    price_with_mer := priceWithMer r prev,
    ppu_change := priceWithMer r prev - prev.price_with_mer,
    final_aum := finalAum r prev }

/-- app.py line 106: init_ppu = init_aum / init_units if init_units
nonzero else 0.0. -/
def initPpu (init_aum init_units : ℚ) : ℚ :=
  if init_units ≠ 0 then init_aum / init_units else 0

/-- app.py line 108: day1_fee = (day1_close_ppu * init_aum) *
MER_DAILY_RATE, with day1_close_ppu = init_ppu (line 107). This fee is
charged unconditionally: there is no flag suppressing it. -/
def day1Fee (init_aum init_units : ℚ) : ℚ :=
  (initPpu init_aum init_units * init_aum) * MER_DAILY_RATE

/-- app.py line 109: day1_price_with_mer = day1_close_ppu - (day1_fee /
init_units if init_units nonzero else 0.0). -/
def day1PriceWithMer (init_aum init_units : ℚ) : ℚ :=
  initPpu init_aum init_units -
    (if init_units ≠ 0 then day1Fee init_aum init_units / init_units else 0)

/-- app.py line 110: day1_final_aum = day1_price_with_mer * init_units. -/
def day1FinalAum (init_aum init_units : ℚ) : ℚ :=
  day1PriceWithMer init_aum init_units * init_units

/-- app.py lines 112-134: the day-one row. The Deposits cell is looked up
from the (deduplicated) inputs at the initial date if present (lines
114-115); it is display-only and feeds no computation. -/
def day1Row (dedup : List DRecord) (init_date : ℤ) (init_aum init_units : ℚ) : Row :=
  { date := init_date,
    deposits :=
      match dedup.find? fun r => r.date == init_date with
      | some r => safe_float r.deposits
      | none => 0,
    withdrawals := 0,
    initial_aum := init_aum,
    units_to_mint := 0,
    units_to_burn := 0,
    net_units := 0,
    units := init_units,
    post_mov_aum := init_aum,
    unrealized := 0,
    unrealized_pct := 0,
    realized := 0,
    realized_pct := 0,
    initial_ppu := initPpu init_aum init_units,
    close_ppu := initPpu init_aum init_units,
    servicing_fee := day1Fee init_aum init_units,
    trading_costs := 0,
    price_with_mer := day1PriceWithMer init_aum init_units,
    ppu_change := day1PriceWithMer init_aum init_units - initPpu init_aum init_units,
    final_aum := day1FinalAum init_aum init_units }

/-- app.py lines 209-212: the closing triple of a row becomes the prev
state of the next iteration. -/
def stepState (row : Row) : PrevState :=
  { final_aum := row.final_aum, units := row.units,
    price_with_mer := row.price_with_mer }

/-- The loop of app.py lines 146-212: one row per remaining input record,
threading the closing triple. -/
def runDays : List DRecord → PrevState → List Row
  | [], _ => []
  | r :: rest, prev =>
      let row := dayStep r prev
      row :: runDays rest (stepState row)

/-- Comparison key of the final sort_values(Date) on rows, app.py
line 216. -/
def rowDateLe (a b : Row) : Prop := a.date ≤ b.date

instance : DecidableRel rowDateLe := fun a b => inferInstanceAs (Decidable (a.date ≤ b.date))

instance : IsTotal Row rowDateLe := ⟨fun a b => Int.le_total a.date b.date⟩

instance : IsTrans Row rowDateLe := ⟨fun _ _ _ hab hbc => le_trans hab hbc⟩

/-- app.py lines 103-212 given the deduplicated inputs: the day-one row
(lines 105-135), then one row per input record with a date different from
the initial date (line 138; line 139 re-sorts the filtered frame, which is
already sorted, so filtering models it), threaded sequentially (lines
142-212). -/
def ledgerRows (dedup : List DRecord) (init_date : ℤ) (init_aum init_units : ℚ) : List Row :=
  let day1 := day1Row dedup init_date init_aum init_units
  day1 :: runDays
    (List.insertionSort dateLe (dedup.filter fun r => r.date != init_date))
    (stepState day1)

/-- app.py lines 70-217: recalc_from_inputs. Lines 95-101 clean and
deduplicate the inputs, lines 103-212 build the rows, line 216 sorts the
output rows by date. -/
def recalc_from_inputs (inputs : List InputRecord) (init_date : ℤ)
    (init_aum init_units : ℚ) : List Row :=
  List.insertionSort rowDateLe
    (ledgerRows (sortDedupInputs inputs) init_date init_aum init_units)

/-- The threading invariant of the replay loop: each row opens with the
closing price and closing AUM of the state it was computed from, and the
rest of the list is chained from that row's closing triple
(app.py lines 155-156 and 209-212). -/
def chained : PrevState → List Row → Prop
  | _, [] => True
  | s, row :: rest =>
      row.initial_ppu = s.price_with_mer ∧ row.initial_aum = s.final_aum ∧
        chained (stepState row) rest

/-- All-zero row used as the out-of-range default of List.getD. -/
def zeroRow : Row :=
  { date := 0, deposits := 0, withdrawals := 0, initial_aum := 0,
    units_to_mint := 0, units_to_burn := 0, net_units := 0, units := 0,
    post_mov_aum := 0, unrealized := 0, unrealized_pct := 0, realized := 0,
    realized_pct := 0, initial_ppu := 0, close_ppu := 0, servicing_fee := 0,
    trading_costs := 0, price_with_mer := 0, ppu_change := 0, final_aum := 0 }

/-- Modelled from the spec: initialize_seed (spec sections 4.2 and 6).
The repository has no such function; recalc_from_inputs hard-codes the
seed-day behaviour instead. Per the spec it fails (none) when seed_units
is nonpositive and otherwise runs the restricted day-step with zero flows,
charging the servicing fee only when charge_fee_on_seed_day is set. -/
def spec_initialize_seed (seed_date : ℤ) (seed_aum seed_units : ℚ)
    (charge_fee_on_seed_day : Bool) (fee_rate : ℚ) : Option Row :=
  if seed_units ≤ 0 then none
  else
    let ppu := seed_aum / seed_units
    let close := ppu
    let post := seed_aum
    let fee := if charge_fee_on_seed_day then (close * post) * fee_rate else 0
    let pwm := close - fee / seed_units
    some
      { date := seed_date, deposits := 0, withdrawals := 0,
        initial_aum := seed_aum, units_to_mint := 0, units_to_burn := 0,
        net_units := 0, units := seed_units, post_mov_aum := post,
        unrealized := 0, unrealized_pct := 0, realized := 0, realized_pct := 0,
        initial_ppu := ppu, close_ppu := close, servicing_fee := fee,
        trading_costs := 0, price_with_mer := pwm, ppu_change := pwm - ppu,
        final_aum := pwm * seed_units }

/-- Modelled from the spec: the servicing fee of spec section 4.1 step 6,
servicing_fee = fee_override if present else (close_ppu * post_mov_aum) *
fee_rate. The code has no servicing_fee_override input (its input schema
REQUIRED_INPUT_COLS, app.py lines 17-24, has no such column). -/
def spec_servicing_fee (close_ppu post_mov_aum fee_rate : ℚ)
    (fee_override : Option ℚ) : ℚ :=
  match fee_override with
  | some f => f
  | none => (close_ppu * post_mov_aum) * fee_rate


attribute [simp] MER_DAILY_RATE safe_float dropnaDates dateLe dateLt mergeLast
  dedupLast sortDedupInputs deposits_in withdrawals_in unreal_in realized_in
  trading_costs_in netFlow mintUnits burnUnits netUnits unitsEndRaw unitsEnd
  postMovAum grossAum closePpu servicingFee feePerUnit priceWithMer finalAum
  unrealPct realizedPct dayStep initPpu day1Fee day1PriceWithMer day1FinalAum
  day1Row stepState runDays rowDateLe ledgerRows recalc_from_inputs zeroRow
  spec_initialize_seed spec_servicing_fee

/-! Claim theorems. -/

/-- C1 (counterexample): a withdrawal exactly equal to initial_units *
initial_ppu (here 1000 * (18247/18250) = 72988/73, after the seed-day fee)
drives units_end to 0, yet the code raises no NonPositiveUnits error: the
ledger still contains a computed row for that date, with the defined price
close_ppu = 0 (app.py lines 166-168 clamp and record). -/
theorem C1_counterexample :
    (recalc_from_inputs [⟨some 1, none, some (72988 / 73), none, none, none⟩] 0 1000
        1000).map (fun w => (w.date, w.units, w.close_ppu, w.price_with_mer)) =
      [(0, 1000, 1, 18247 / 18250), (1, 0, 0, 0)] := by norm_num [List.insertionSort, List.orderedInsert]

/-- C1 (amended): when the day's flows drive the unit count to zero or
below (initial_units + units_to_mint - units_to_burn ≤ 0), the code does
not fail; it clamps units_end to 0 and records the row with close_ppu,
price_with_mer and final_aum all equal to 0. -/
theorem C1_amended_clamp (r : DRecord) (prev : PrevState)
    (h : prev.units + (dayStep r prev).units_to_mint
        - (dayStep r prev).units_to_burn ≤ 0) :
    (dayStep r prev).units = 0 ∧ (dayStep r prev).close_ppu = 0 ∧
      (dayStep r prev).price_with_mer = 0 ∧ (dayStep r prev).final_aum = 0 := by
  have h2 : prev.units + mintUnits r prev - burnUnits r prev ≤ 0 := h
  have hraw : unitsEndRaw r prev ≤ 0 := by
    unfold unitsEndRaw netUnits
    linarith
  have hue : unitsEnd r prev = 0 := by
    unfold unitsEnd
    rw [if_pos hraw]
  have hcp : closePpu r prev = 0 := by
    unfold closePpu
    rw [hue]
    simp
  have hfpu : feePerUnit r prev = 0 := by
    unfold feePerUnit
    rw [hue]
    simp
  have hpwm : priceWithMer r prev = 0 := by
    unfold priceWithMer
    rw [hcp, hfpu]
    ring
  have hfa : finalAum r prev = 0 := by
    unfold finalAum
    rw [hue]
    ring
  exact ⟨hue, hcp, hpwm, hfa⟩

/-- C1 amended, witness: a 2000 withdrawal against 1000 units at price 1
satisfies the hypothesis and yields the clamped zero row. -/
theorem C1_amended_clamp_witness :
    ((1000 : ℚ) + (dayStep ⟨1, none, some 2000, none, none, none⟩
          ⟨1000, 1000, 1⟩).units_to_mint
        - (dayStep ⟨1, none, some 2000, none, none, none⟩
          ⟨1000, 1000, 1⟩).units_to_burn ≤ 0) ∧
      ((dayStep ⟨1, none, some 2000, none, none, none⟩ ⟨1000, 1000, 1⟩).units = 0 ∧
        (dayStep ⟨1, none, some 2000, none, none, none⟩ ⟨1000, 1000, 1⟩).close_ppu = 0 ∧
        (dayStep ⟨1, none, some 2000, none, none, none⟩
            ⟨1000, 1000, 1⟩).price_with_mer = 0 ∧
        (dayStep ⟨1, none, some 2000, none, none, none⟩
            ⟨1000, 1000, 1⟩).final_aum = 0) :=
  ⟨by norm_num [List.insertionSort, List.orderedInsert], C1_amended_clamp _ _ (by norm_num [List.insertionSort, List.orderedInsert])⟩

/-- C2 (counterexample): the code has no charge_fee_on_seed_day parameter;
with the spec seed (aum = units = 10733.50) the first ledger row always
carries the servicing fee 64401/36500 (about 1.7644), whereas the spec
interface with the flag set to false yields a zero fee. Charging the
day-one fee is hard-coded. -/
theorem C2_counterexample :
    (recalc_from_inputs [] 0 (21467 / 2) (21467 / 2)).map Row.servicing_fee =
        [64401 / 36500] ∧
      (64401 / 36500 : ℚ) ≠ 0 ∧
      (spec_initialize_seed 0 (21467 / 2) (21467 / 2) false
            MER_DAILY_RATE).map Row.servicing_fee = some 0 := by norm_num [List.insertionSort, List.orderedInsert]

/-- C2 (amended): recalc_from_inputs exposes no seed-day fee flag; the
first-row servicing fee is unconditionally (init_ppu * init_aum) *
MER_DAILY_RATE (app.py line 108), for every seed. -/
theorem C2_amended_hardcoded (dedup : List DRecord) (d : ℤ) (aum units : ℚ) :
    (day1Row dedup d aum units).servicing_fee =
      (initPpu aum units * aum) * MER_DAILY_RATE := rfl

/-- C3 (counterexample): in the spec scenario (seed 2025-10-21,
aum = units = 10733.50, day 2 deposits = 1000) the code does not mint
1000 units: because the seed-day fee is hard-coded, day-2 initial_ppu is
1 - 0.06/365, and units_to_mint = 18250000/18247, which differs from 1000
by 3000/18247, far more than 10^-6. -/
theorem C3_counterexample :
    |((recalc_from_inputs [⟨some 1, some 1000, none, none, none, none⟩] 0 (21467 / 2)
          (21467 / 2)).map Row.units_to_mint).getD 1 0 - 1000| >
      1 / 1000000 := by
  have h : ((recalc_from_inputs [⟨some 1, some 1000, none, none, none, none⟩] 0
        (21467 / 2) (21467 / 2)).map Row.units_to_mint).getD 1 0 - 1000 =
      3000 / 18247 := by
    norm_num [List.insertionSort, List.orderedInsert]
  rw [h, abs_of_pos (by norm_num)]
  norm_num

/-- C3 (amended): in that scenario the day-2 row follows the same formula
chain but threaded through the mandatory seed-day fee: with
rr = 0.06/365, day-1 price d1pwm = 1 - rr and day-1 final AUM
d1final = d1pwm * 10733.50, the row has units_to_mint = 1000 / d1pwm,
units_end = 10733.50 + 1000 / d1pwm, post_mov_aum = d1final + 1000,
close_ppu = d1final / units_end (gross AUM is d1final, not 10733.50),
servicing_fee = close_ppu * post_mov_aum * rr, price_with_mer =
close_ppu - servicing_fee / units_end, final_aum = price_with_mer *
units_end, exactly. -/
theorem C3_amended :
    ((recalc_from_inputs [⟨some 1, some 1000, none, none, none, none⟩] 0 (21467 / 2)
          (21467 / 2)).map fun w =>
            (w.units_to_mint, w.units, w.post_mov_aum, w.close_ppu, w.servicing_fee,
              w.price_with_mer, w.final_aum)).getD 1 (0, 0, 0, 0, 0, 0, 0) =
      (let rr := MER_DAILY_RATE
       let d1pwm := 1 - rr
       let d1final := d1pwm * (21467 / 2)
       let m := 1000 / d1pwm
       let ue := 21467 / 2 + m
       let pma := d1final + 1000
       let cp := d1final / ue
       let fee := cp * pma * rr
       let pwm := cp - fee / ue
       (m, ue, pma, cp, fee, pwm, pwm * ue)) := by norm_num [List.insertionSort, List.orderedInsert]

/-- C5 (counterexample): the claim's override branch is unrealizable: the
code's input schema has no servicing_fee_override field, so on a day whose
spec-level record carries the override 5 the code still computes the fee
from close_ppu and post_mov_aum (here 12/73, not 5). -/
theorem C5_counterexample :
    (dayStep ⟨1, none, none, none, none, none⟩ ⟨1000, 1000, 1⟩).servicing_fee ≠
      spec_servicing_fee
        (dayStep ⟨1, none, none, none, none, none⟩ ⟨1000, 1000, 1⟩).close_ppu
        (dayStep ⟨1, none, none, none, none, none⟩ ⟨1000, 1000, 1⟩).post_mov_aum
        MER_DAILY_RATE (some 5) := by norm_num [List.insertionSort, List.orderedInsert]

/-- C5 (amended): for every day-step the servicing fee equals
(close_ppu * post_mov_aum) * MER_DAILY_RATE; there is no override path
(the rate itself is also fixed at 0.06/365, not a parameter). -/
theorem C5_amended_fee (r : DRecord) (prev : PrevState) :
    (dayStep r prev).servicing_fee =
      ((dayStep r prev).close_ppu * (dayStep r prev).post_mov_aum) *
        MER_DAILY_RATE := rfl

/-- A date-sorted list with pairwise distinct dates is strictly sorted. -/
lemma sorted_nodup_strict {l : List DRecord} (hs : List.Sorted dateLe l)
    (hn : (l.map DRecord.date).Nodup) : List.Pairwise dateLt l := by
  have hne : List.Pairwise (fun a b : DRecord => a.date ≠ b.date) l :=
    List.pairwise_map.mp hn
  exact (List.Pairwise.and hs hne).imp fun h => lt_of_le_of_ne h.1 h.2

/-- The cleaning pipeline of app.py lines 95-101 is insertion-order
independent when the (valid) dates are pairwise distinct: sorting a
permutation of the records gives the same strictly date-sorted list. -/
lemma sortDedup_perm_eq (i1 i2 : List InputRecord) (hperm : i1.Perm i2)
    (hnodup : ((dropnaDates i1).map DRecord.date).Nodup) :
    sortDedupInputs i1 = sortDedupInputs i2 := by
  have hdp : (dropnaDates i1).Perm (dropnaDates i2) := hperm.filterMap _
  have hp1 : (List.insertionSort dateLe (dropnaDates i1)).Perm (dropnaDates i1) :=
    List.perm_insertionSort dateLe (dropnaDates i1)
  have hp2 : (List.insertionSort dateLe (dropnaDates i2)).Perm (dropnaDates i2) :=
    List.perm_insertionSort dateLe (dropnaDates i2)
  have hn1 : ((List.insertionSort dateLe (dropnaDates i1)).map DRecord.date).Nodup :=
    ((hp1.map DRecord.date).nodup_iff).mpr hnodup
  have hn2 : ((List.insertionSort dateLe (dropnaDates i2)).map DRecord.date).Nodup :=
    ((hp2.map DRecord.date).nodup_iff).mpr
      (((hdp.map DRecord.date).nodup_iff).mp hnodup)
  have hl1 : List.Pairwise dateLt (List.insertionSort dateLe (dropnaDates i1)) :=
    sorted_nodup_strict (List.sorted_insertionSort dateLe (dropnaDates i1)) hn1
  have hl2 : List.Pairwise dateLt (List.insertionSort dateLe (dropnaDates i2)) :=
    sorted_nodup_strict (List.sorted_insertionSort dateLe (dropnaDates i2)) hn2
  have he : List.insertionSort dateLe (dropnaDates i1) =
      List.insertionSort dateLe (dropnaDates i2) :=
    List.eq_of_perm_of_sorted ((hp1.trans hdp).trans hp2.symm) hl1 hl2
  unfold sortDedupInputs
  rw [he]

/-- C6: rebuilding twice from the same seed and inputs yields identical
ledgers (the engine reads no hidden state), and for input sets with
pairwise distinct dates the ledger is independent of the order in which
the records are listed: only their date order matters. -/
theorem C6_determinism (i1 i2 : List InputRecord) (d : ℤ) (aum units : ℚ)
    (hperm : i1.Perm i2)
    (hnodup : ((dropnaDates i1).map DRecord.date).Nodup) :
    recalc_from_inputs i1 d aum units = recalc_from_inputs i1 d aum units ∧
      recalc_from_inputs i1 d aum units = recalc_from_inputs i2 d aum units := by
  refine ⟨rfl, ?_⟩
  unfold recalc_from_inputs
  rw [sortDedup_perm_eq i1 i2 hperm hnodup]

/-- C6 witness: two records entered in the two possible orders produce the
same ledger. -/
theorem C6_witness :
    ([⟨some 2, some 50, none, none, none, none⟩,
        ⟨some 1, none, some 7, none, none, none⟩] : List InputRecord).Perm
        [⟨some 1, none, some 7, none, none, none⟩,
          ⟨some 2, some 50, none, none, none, none⟩] ∧
      ((dropnaDates [⟨some 2, some 50, none, none, none, none⟩,
            ⟨some 1, none, some 7, none, none, none⟩]).map DRecord.date).Nodup ∧
      (recalc_from_inputs [⟨some 2, some 50, none, none, none, none⟩,
            ⟨some 1, none, some 7, none, none, none⟩] 0 1000 1000 =
          recalc_from_inputs [⟨some 2, some 50, none, none, none, none⟩,
            ⟨some 1, none, some 7, none, none, none⟩] 0 1000 1000 ∧
        recalc_from_inputs [⟨some 2, some 50, none, none, none, none⟩,
            ⟨some 1, none, some 7, none, none, none⟩] 0 1000 1000 =
          recalc_from_inputs [⟨some 1, none, some 7, none, none, none⟩,
            ⟨some 2, some 50, none, none, none, none⟩] 0 1000 1000) :=
  ⟨List.Perm.swap _ _ _, by decide,
    C6_determinism _ _ 0 1000 1000 (List.Perm.swap _ _ _) (by decide)⟩

/-- C7: a day-step with zero deposits and zero withdrawals conserves the
unit count exactly, for every prior state with nonnegative units (the only
reachable ones: the clamp at app.py lines 166-168 keeps ledger unit counts
nonnegative and the UI requires positive initial units). -/
theorem C7_unit_conservation (r : DRecord) (prev : PrevState)
    (h0 : 0 ≤ prev.units) (hd : deposits_in r = 0) (hw : withdrawals_in r = 0) :
    (dayStep r prev).units = prev.units := by
  have hm : mintUnits r prev = 0 := by
    unfold mintUnits
    rw [if_neg]
    intro hc
    rw [hd] at hc
    exact lt_irrefl 0 hc.1
  have hb : burnUnits r prev = 0 := by
    unfold burnUnits
    rw [if_neg]
    intro hc
    rw [hw] at hc
    exact lt_irrefl 0 hc.1
  have hraw : unitsEndRaw r prev = prev.units := by
    unfold unitsEndRaw netUnits
    rw [hm, hb]
    ring
  show unitsEnd r prev = prev.units
  unfold unitsEnd
  rw [hraw]
  by_cases hz : prev.units ≤ 0
  · rw [if_pos hz]
    exact (le_antisymm hz h0).symm
  · rw [if_neg hz]

/-- C7 witness: a day with deposits recorded as 0, withdrawals missing,
and nonzero performance and costs leaves the 400 units unchanged. -/
theorem C7_witness :
    ((0 : ℚ) ≤ 400) ∧
      deposits_in ⟨5, some 0, none, some 250, some (-40), some 3⟩ = 0 ∧
      withdrawals_in ⟨5, some 0, none, some 250, some (-40), some 3⟩ = 0 ∧
      (dayStep ⟨5, some 0, none, some 250, some (-40), some 3⟩
          ⟨500, 400, 2⟩).units = 400 :=
  ⟨by norm_num [List.insertionSort, List.orderedInsert], by norm_num [List.insertionSort, List.orderedInsert], by norm_num [List.insertionSort, List.orderedInsert],
    C7_unit_conservation _ _ (by norm_num [List.insertionSort, List.orderedInsert]) (by norm_num [List.insertionSort, List.orderedInsert]) (by norm_num [List.insertionSort, List.orderedInsert])⟩

/-- C8: when post_mov_aum is 0 the performance percentage fields are
exactly 0 (guards at app.py lines 181-182); the embedding is a total
function, mirroring that no division is attempted there. -/
theorem C8_zero_base_guard (r : DRecord) (prev : PrevState)
    (h : (dayStep r prev).post_mov_aum = 0) :
    (dayStep r prev).unrealized_pct = 0 ∧ (dayStep r prev).realized_pct = 0 := by
  have h2 : postMovAum r prev = 0 := h
  constructor
  · show unrealPct r prev = 0
    unfold unrealPct
    rw [if_neg (not_not_intro h2)]
  · show realizedPct r prev = 0
    unfold realizedPct
    rw [if_neg (not_not_intro h2)]

/-- C8 witness: a prior final AUM of 0 with no flows gives post_mov_aum 0,
and both percentage fields are 0 even though unrealized performance is
10. -/
theorem C8_witness :
    (dayStep ⟨3, none, none, some 10, none, none⟩ ⟨0, 100, 1⟩).post_mov_aum = 0 ∧
      ((dayStep ⟨3, none, none, some 10, none, none⟩ ⟨0, 100, 1⟩).unrealized_pct = 0 ∧
        (dayStep ⟨3, none, none, some 10, none, none⟩ ⟨0, 100, 1⟩).realized_pct = 0) :=
  ⟨by norm_num [List.insertionSort, List.orderedInsert], C8_zero_base_guard _ _ (by norm_num [List.insertionSort, List.orderedInsert])⟩

/-- Every element of the deduplicated list carries a date of the original
list. -/
lemma dedupLast_date_mem : ∀ (l : List DRecord) (x : DRecord),
    x ∈ dedupLast l → x.date ∈ l.map DRecord.date
  | [], x, hx => by
      simp only [dedupLast] at hx
      exact absurd hx (List.not_mem_nil x)
  | [a], x, hx => by
      simp only [dedupLast, List.mem_singleton] at hx
      subst hx
      simp
  | a :: b :: rest, x, hx => by
      simp only [dedupLast] at hx
      by_cases hab : a.date = b.date
      · rw [if_pos hab] at hx
        have h1 := dedupLast_date_mem (mergeLast a b :: rest) x hx
        simp only [List.map_cons, List.mem_cons] at h1 ⊢
        rcases h1 with h1 | h1
        · exact Or.inr (Or.inl h1)
        · exact Or.inr (Or.inr h1)
      · rw [if_neg hab] at hx
        rcases List.mem_cons.mp hx with h1 | h1
        · subst h1
          simp
        · have h2 := dedupLast_date_mem (b :: rest) x h1
          simp only [List.map_cons, List.mem_cons] at h2 ⊢
          exact Or.inr h2
termination_by l => l.length

/-- Deduplicating a date-sorted list yields strictly increasing dates. -/
lemma dedupLast_pairwise : ∀ (l : List DRecord), List.Sorted dateLe l →
    List.Pairwise dateLt (dedupLast l)
  | [], _ => by
      simp only [dedupLast]
      exact List.Pairwise.nil
  | [a], _ => by
      simp only [dedupLast]
      exact List.pairwise_singleton _ _
  | a :: b :: rest, h => by
      rw [List.sorted_cons] at h
      have h2 := h.2
      rw [List.sorted_cons] at h2
      by_cases hab : a.date = b.date
      · have hm : List.Sorted dateLe (mergeLast a b :: rest) :=
          List.sorted_cons.mpr ⟨fun y hy => h2.1 y hy, h2.2⟩
        simp only [dedupLast]
        rw [if_pos hab]
        exact dedupLast_pairwise (mergeLast a b :: rest) hm
      · simp only [dedupLast]
        rw [if_neg hab]
        refine List.pairwise_cons.mpr ⟨?_, dedupLast_pairwise (b :: rest) h.2⟩
        intro y hy
        have hab2 : a.date < b.date :=
          lt_of_le_of_ne (h.1 b (List.mem_cons_self b rest)) hab
        have hyd := dedupLast_date_mem (b :: rest) y hy
        simp only [List.map_cons, List.mem_cons] at hyd
        show a.date < y.date
        rcases hyd with hyd | hyd
        · rw [← hyd] at hab2
          exact hab2
        · rcases List.mem_map.mp hyd with ⟨z, hz, hzd⟩
          have hbz : b.date ≤ z.date := h2.1 z hz
          rw [hzd] at hbz
          exact lt_of_lt_of_le hab2 hbz
termination_by l => l.length

/-- The replay loop gives each row the date of its input record. -/
lemma runDays_map_date : ∀ (l : List DRecord) (s : PrevState),
    (runDays l s).map Row.date = l.map DRecord.date
  | [], _ => rfl
  | r :: rest, s =>
      congrArg (List.cons r.date) (runDays_map_date rest (stepState (dayStep r s)))

/-- The replay loop satisfies the threading invariant. -/
lemma chained_runDays : ∀ (l : List DRecord) (s : PrevState), chained s (runDays l s)
  | [], _ => trivial
  | r :: rest, s => ⟨rfl, rfl, chained_runDays rest (stepState (dayStep r s))⟩

/-- Positional reading of the threading invariant: consecutive rows agree
on closing and opening price and AUM. -/
lemma chained_getD : ∀ (L : List Row) (s : PrevState), chained s L → ∀ i : ℕ,
    i + 1 < L.length →
    ((L.getD (i + 1) zeroRow).initial_ppu = (L.getD i zeroRow).price_with_mer ∧
      (L.getD (i + 1) zeroRow).initial_aum = (L.getD i zeroRow).final_aum)
  | [], _, _, i, h => absurd h (by simp)
  | row :: rest, s, hc, 0, h => by
      cases rest with
      | nil => simp at h
      | cons r2 tl => exact ⟨hc.2.2.1, hc.2.2.2.1⟩
  | row :: rest, s, hc, i + 1, h =>
      chained_getD rest (stepState row) hc.2.2 i (Nat.lt_of_succ_lt_succ h)

/-- When every input date is strictly after the initial date, the final
sort_values of app.py line 216 is the identity: the rows already come out
in ascending date order, so the ledger is the threaded row list itself. -/
lemma ledgerRows_eq_of_after (inputs : List InputRecord) (d : ℤ) (a u : ℚ)
    (hd : ∀ rec ∈ dropnaDates inputs, d < rec.date) :
    recalc_from_inputs inputs d a u = ledgerRows (sortDedupInputs inputs) d a u := by
  have hsorted : List.Pairwise dateLt (sortDedupInputs inputs) :=
    dedupLast_pairwise _ (List.sorted_insertionSort dateLe (dropnaDates inputs))
  have hfil : List.Pairwise dateLt
      ((sortDedupInputs inputs).filter fun r => r.date != d) :=
    List.Pairwise.sublist (List.filter_sublist _) hsorted
  have hfil_le : List.Sorted dateLe
      ((sortDedupInputs inputs).filter fun r => r.date != d) :=
    hfil.imp fun h => le_of_lt h
  have hinner : List.insertionSort dateLe
      ((sortDedupInputs inputs).filter fun r => r.date != d) =
      (sortDedupInputs inputs).filter fun r => r.date != d :=
    hfil_le.insertionSort_eq
  have hrest_dates : ∀ x ∈ (sortDedupInputs inputs).filter fun r => r.date != d,
      d < x.date := by
    intro x hx
    have hx2 : x ∈ sortDedupInputs inputs := List.mem_of_mem_filter hx
    have hx3 := dedupLast_date_mem _ x hx2
    have hx4 : x.date ∈ (dropnaDates inputs).map DRecord.date :=
      (((List.perm_insertionSort dateLe (dropnaDates inputs)).map
        DRecord.date).mem_iff).mp hx3
    rcases List.mem_map.mp hx4 with ⟨z, hz, hzd⟩
    exact hzd ▸ hd z hz
  have hmap : (ledgerRows (sortDedupInputs inputs) d a u).map Row.date =
      d :: ((sortDedupInputs inputs).filter fun r => r.date != d).map
        DRecord.date := by
    simp only [ledgerRows, List.map_cons, hinner, runDays_map_date]
    rfl
  have hpw : List.Pairwise (fun x y : ℤ => x ≤ y)
      ((ledgerRows (sortDedupInputs inputs) d a u).map Row.date) := by
    rw [hmap]
    refine List.pairwise_cons.mpr ⟨?_, ?_⟩
    · intro y hy
      rcases List.mem_map.mp hy with ⟨z, hz, hzd⟩
      exact hzd ▸ le_of_lt (hrest_dates z hz)
    · exact List.pairwise_map.mpr (hfil.imp fun h => le_of_lt h)
  have hrows0 := List.pairwise_map.mp hpw
  have hrows : List.Sorted rowDateLe (ledgerRows (sortDedupInputs inputs) d a u) :=
    hrows0
  unfold recalc_from_inputs
  exact hrows.insertionSort_eq

/-- C4 (counterexample): an input dated before the seed date (date 5
versus seed date 10) is processed after the seed row but sorted before it,
so in the rebuilt ledger row 1 does not open with row 0's closing state:
its initial_ppu and initial_aum differ from row 0's price_with_mer and
final_aum. -/
theorem C4_counterexample :
    ((recalc_from_inputs [⟨some 5, some 1000, none, none, none, none⟩] 10 1000
            1000).getD 1 zeroRow).initial_ppu ≠
        ((recalc_from_inputs [⟨some 5, some 1000, none, none, none, none⟩] 10 1000
            1000).getD 0 zeroRow).price_with_mer ∧
      ((recalc_from_inputs [⟨some 5, some 1000, none, none, none, none⟩] 10 1000
            1000).getD 1 zeroRow).initial_aum ≠
        ((recalc_from_inputs [⟨some 5, some 1000, none, none, none, none⟩] 10 1000
            1000).getD 0 zeroRow).final_aum := by
  constructor <;> norm_num [List.insertionSort, List.orderedInsert]

/-- C4 (amended): provided every input date is strictly after the seed
date (so the final date sort does not reorder the threading), every rebuilt
ledger satisfies price and AUM continuity: row i+1 opens with row i's
closing price_with_mer and final_aum. -/
theorem C4_continuity (inputs : List InputRecord) (d : ℤ) (aum units : ℚ)
    (hd : ∀ rec ∈ dropnaDates inputs, d < rec.date) (i : ℕ)
    (hi : i + 1 < (recalc_from_inputs inputs d aum units).length) :
    ((recalc_from_inputs inputs d aum units).getD (i + 1) zeroRow).initial_ppu =
        ((recalc_from_inputs inputs d aum units).getD i zeroRow).price_with_mer ∧
      ((recalc_from_inputs inputs d aum units).getD (i + 1) zeroRow).initial_aum =
        ((recalc_from_inputs inputs d aum units).getD i zeroRow).final_aum := by
  rw [ledgerRows_eq_of_after inputs d aum units hd] at hi ⊢
  refine chained_getD (ledgerRows (sortDedupInputs inputs) d aum units)
    ⟨aum, units, initPpu aum units⟩ ?_ i hi
  exact ⟨rfl, rfl, chained_runDays _ _⟩

/-- C4 witness: one post-seed input day; its row opens with the seed row's
closing price and AUM. -/
theorem C4_witness :
    (∀ rec ∈ dropnaDates [⟨some 1, some 100, none, none, none, none⟩],
        (0 : ℤ) < rec.date) ∧
      0 + 1 < (recalc_from_inputs [⟨some 1, some 100, none, none, none, none⟩] 0
          1000 1000).length ∧
      (((recalc_from_inputs [⟨some 1, some 100, none, none, none, none⟩] 0 1000
              1000).getD (0 + 1) zeroRow).initial_ppu =
          ((recalc_from_inputs [⟨some 1, some 100, none, none, none, none⟩] 0 1000
              1000).getD 0 zeroRow).price_with_mer ∧
        ((recalc_from_inputs [⟨some 1, some 100, none, none, none, none⟩] 0 1000
              1000).getD (0 + 1) zeroRow).initial_aum =
          ((recalc_from_inputs [⟨some 1, some 100, none, none, none, none⟩] 0 1000
              1000).getD 0 zeroRow).final_aum) :=
  ⟨by decide, by norm_num [List.insertionSort, List.orderedInsert],
    C4_continuity _ 0 1000 1000 (by decide) 0
      (by norm_num [List.insertionSort, List.orderedInsert])⟩

/-- A row whose clamped unit count is zero closes with zero price and
AUM (guards at app.py lines 173 and 176). -/
lemma unitsEnd_zero_props (r : DRecord) (prev : PrevState)
    (hue : unitsEnd r prev = 0) :
    closePpu r prev = 0 ∧ priceWithMer r prev = 0 ∧ finalAum r prev = 0 := by
  have hcp : closePpu r prev = 0 := by
    unfold closePpu
    rw [hue]
    simp
  have hfpu : feePerUnit r prev = 0 := by
    unfold feePerUnit
    rw [hue]
    simp
  refine ⟨hcp, ?_, ?_⟩
  · unfold priceWithMer
    rw [hcp, hfpu]
    ring
  · unfold finalAum
    rw [hue]
    ring

/-- A zero-unit zero-price prior state is absorbing for one step: no units
can be minted at price 0, so the row stays all-zero. -/
lemma dayStep_absorb (r : DRecord) (prev : PrevState) (hu : prev.units = 0)
    (hp : prev.price_with_mer = 0) :
    (dayStep r prev).units = 0 ∧ (dayStep r prev).close_ppu = 0 ∧
      (dayStep r prev).price_with_mer = 0 ∧ (dayStep r prev).final_aum = 0 := by
  have hm : mintUnits r prev = 0 := by
    unfold mintUnits
    rw [if_neg]
    intro hc
    exact hc.2 hp
  have hb : burnUnits r prev = 0 := by
    unfold burnUnits
    rw [if_neg]
    intro hc
    exact hc.2 hp
  have hraw : unitsEndRaw r prev ≤ 0 := by
    unfold unitsEndRaw netUnits
    rw [hm, hb, hu]
    norm_num
  have hue : unitsEnd r prev = 0 := by
    unfold unitsEnd
    rw [if_pos hraw]
  have h3 := unitsEnd_zero_props r prev hue
  exact ⟨hue, h3.1, h3.2.1, h3.2.2⟩

/-- From a zero-unit zero-price state every replayed row is all-zero. -/
lemma runDays_absorb : ∀ (l : List DRecord) (s : PrevState), s.units = 0 →
    s.price_with_mer = 0 → ∀ row ∈ runDays l s,
      row.units = 0 ∧ row.close_ppu = 0 ∧ row.price_with_mer = 0 ∧
        row.final_aum = 0
  | [], _, _, _, row, hmem => absurd hmem (List.not_mem_nil row)
  | r :: rest, s, hu, hp, row, hmem => by
      have h4 := dayStep_absorb r s hu hp
      rcases List.mem_cons.mp hmem with h | h
      · subst h
        exact h4
      · exact runDays_absorb rest (stepState (dayStep r s)) h4.1 h4.2.2.1 row h

/-- In-range List.getD values are members. -/
lemma getD_mem_row : ∀ (L : List Row) (n : ℕ), n < L.length → L.getD n zeroRow ∈ L
  | [], n, h => absurd h (Nat.not_lt_zero n)
  | a :: l, 0, _ => List.mem_cons_self a l
  | a :: l, n + 1, h =>
      List.mem_cons_of_mem a (getD_mem_row l n (Nat.lt_of_succ_lt_succ h))

/-- Inside one replay, once a row ends with zero units every later row is
all-zero. -/
lemma runDays_zero_after : ∀ (l : List DRecord) (s : PrevState) (i j : ℕ),
    i < j → j < (runDays l s).length →
    ((runDays l s).getD i zeroRow).units = 0 →
    (((runDays l s).getD j zeroRow).units = 0 ∧
      ((runDays l s).getD j zeroRow).close_ppu = 0 ∧
      ((runDays l s).getD j zeroRow).price_with_mer = 0 ∧
      ((runDays l s).getD j zeroRow).final_aum = 0)
  | [], _, _, j, _, hj, _ => absurd hj (Nat.not_lt_zero j)
  | _ :: _, _, i, 0, hij, _, _ => absurd hij (Nat.not_lt_zero i)
  | r :: rest, s, 0, j + 1, _, hj, hz => by
      have hzz : (dayStep r s).units = 0 := hz
      have hprops := unitsEnd_zero_props r s hzz
      exact runDays_absorb rest (stepState (dayStep r s)) hzz hprops.2.1 _
        (getD_mem_row _ j (Nat.lt_of_succ_lt_succ hj))
  | r :: rest, s, i + 1, j + 1, hij, hj, hz =>
      runDays_zero_after rest (stepState (dayStep r s)) i j
        (Nat.lt_of_succ_lt_succ hij) (Nat.lt_of_succ_lt_succ hj) hz

/-- A zero-unit seed gives a zero day-one closing price and AUM. -/
lemma day1_zero_props (a u : ℚ) (hu : u = 0) :
    day1PriceWithMer a u = 0 ∧ day1FinalAum a u = 0 := by
  subst hu
  exact ⟨by simp, by simp⟩

/-- C9 (counterexample): as stated over arbitrary rebuilt ledgers the
absorbing property fails, again through an input dated before the seed
date: a pre-seed day whose withdrawal wipes out the units sorts before the
seed row, so a zero-unit row is followed by the seed row with 1000
units. -/
theorem C9_counterexample :
    ((recalc_from_inputs [⟨some 5, none, some 100000, none, none, none⟩] 10 1000
            1000).getD 0 zeroRow).units = 0 ∧
      ((recalc_from_inputs [⟨some 5, none, some 100000, none, none, none⟩] 10 1000
            1000).getD 1 zeroRow).units ≠ 0 := by
  constructor <;> norm_num [List.insertionSort, List.orderedInsert]

/-- C9 (amended): provided every input date is strictly after the seed
date, zero units is an absorbing state: if row i of the rebuilt ledger has
zero units, every later row j has zero units, zero close_ppu, zero
price_with_mer and zero final_aum, whatever its deposits, withdrawals,
performance or trading-cost inputs; and the computation is total (the
embedding raises nothing, mirroring the guards of app.py lines 161-182). -/
theorem C9_absorbing (inputs : List InputRecord) (d : ℤ) (aum units : ℚ)
    (hd : ∀ rec ∈ dropnaDates inputs, d < rec.date) (i j : ℕ) (hij : i < j)
    (hj : j < (recalc_from_inputs inputs d aum units).length)
    (hz : ((recalc_from_inputs inputs d aum units).getD i zeroRow).units = 0) :
    ((recalc_from_inputs inputs d aum units).getD j zeroRow).units = 0 ∧
      ((recalc_from_inputs inputs d aum units).getD j zeroRow).close_ppu = 0 ∧
      ((recalc_from_inputs inputs d aum units).getD j zeroRow).price_with_mer = 0 ∧
      ((recalc_from_inputs inputs d aum units).getD j zeroRow).final_aum = 0 := by
  rw [ledgerRows_eq_of_after inputs d aum units hd] at hj hz ⊢
  cases i with
  | zero =>
      have hu : units = 0 := hz
      have hprops := day1_zero_props aum units hu
      cases j with
      | zero => exact absurd hij (lt_irrefl 0)
      | succ j =>
          exact runDays_absorb
            (List.insertionSort dateLe
              ((sortDedupInputs inputs).filter fun r => r.date != d))
            (stepState (day1Row (sortDedupInputs inputs) d aum units))
            hu hprops.1 _
            (getD_mem_row _ j (Nat.lt_of_succ_lt_succ hj))
  | succ i =>
      cases j with
      | zero => exact absurd hij (Nat.not_lt_zero _)
      | succ j =>
          exact runDays_zero_after _ _ i j (Nat.lt_of_succ_lt_succ hij)
            (Nat.lt_of_succ_lt_succ hj) hz

/-- C9 witness: a zero-unit seed followed by a deposit day: the deposit
cannot mint at price 0 and the day stays all-zero. -/
theorem C9_witness :
    (∀ rec ∈ dropnaDates [⟨some 1, some 500, none, none, none, none⟩],
        (0 : ℤ) < rec.date) ∧
      0 < 1 ∧
      1 < (recalc_from_inputs [⟨some 1, some 500, none, none, none, none⟩] 0 0
          0).length ∧
      ((recalc_from_inputs [⟨some 1, some 500, none, none, none, none⟩] 0 0
          0).getD 0 zeroRow).units = 0 ∧
      (((recalc_from_inputs [⟨some 1, some 500, none, none, none, none⟩] 0 0
              0).getD 1 zeroRow).units = 0 ∧
        ((recalc_from_inputs [⟨some 1, some 500, none, none, none, none⟩] 0 0
            0).getD 1 zeroRow).close_ppu = 0 ∧
        ((recalc_from_inputs [⟨some 1, some 500, none, none, none, none⟩] 0 0
            0).getD 1 zeroRow).price_with_mer = 0 ∧
        ((recalc_from_inputs [⟨some 1, some 500, none, none, none, none⟩] 0 0
            0).getD 1 zeroRow).final_aum = 0) :=
  ⟨by decide, by norm_num,
    by norm_num [List.insertionSort, List.orderedInsert],
    by norm_num [List.insertionSort, List.orderedInsert],
    C9_absorbing _ 0 0 0 (by decide) 0 1 (by norm_num)
      (by norm_num [List.insertionSort, List.orderedInsert])
      (by norm_num [List.insertionSort, List.orderedInsert])⟩

/-- C10: a missing, NaN, or unparseable numeric cell (all modelled none,
the fallback class of safe_float, app.py lines 28-34) yields exactly the
row computed from the same record with that cell set to 0, for each of the
five numeric input fields. -/
theorem C10_missing_defaults (r : DRecord) (prev : PrevState) :
    dayStep { r with deposits := none } prev =
        dayStep { r with deposits := some 0 } prev ∧
      dayStep { r with withdrawals := none } prev =
        dayStep { r with withdrawals := some 0 } prev ∧
      dayStep { r with unrealized := none } prev =
        dayStep { r with unrealized := some 0 } prev ∧
      dayStep { r with realized := none } prev =
        dayStep { r with realized := some 0 } prev ∧
      dayStep { r with trading_costs := none } prev =
        dayStep { r with trading_costs := some 0 } prev :=
  ⟨rfl, rfl, rfl, rfl, rfl⟩

end Fund
